import Mathlib

/-
Verification of the chip8-rust interpreter core.

This file gives a shallow embedding of the interpreter found in
src/cpu/cpu.rs, src/mem/mem.rs, src/display/display.rs and
src/timer/timer.rs, and proves properties of it.

Modelling conventions:
* u8 / u16 values are Nat with explicit `% 256` / `% 65536` where the Rust
  code wraps (`wrapping_sub`, `as u8`, shift of u8, `& 0xFFFF`).
* `instr & 0xFF` is written `instr % 256`, `(instr >> 8) & 0xF` is written
  `instr / 256 % 16`, `instr & 0xFFF` is `instr % 4096`, and so on.
* Memory (a Rust `[u8; 4096]`) is a total function `Nat → Nat`; the checked
  accessor `Memory::read` returns `Except`, while the direct (unchecked)
  indexing `mem.mem[idx]` that the CPU performs in `store`, `load`, `bcd`
  and `get_sprite` is modelled by `rawRead` / `rawWrite`, whose `none`
  result stands for the Rust index-out-of-bounds panic (a process abort,
  not a returned error).
* Methods taking `&mut self` and returning `Result` are modelled as
  functions returning a `DResult × state` pair, so a theorem can speak
  about the state present when an error is returned.
* The external collaborators (Display, Timer, the random generator) are
  modelled by an `Env` record carrying the data decode reads from them:
  the sampled key states, the delay counter value, the random byte and
  the display framebuffer.  Their presence flags model the `Option<&..>`
  parameters of `Cpu::decode` (an `unwrap` of an absent collaborator is
  the Rust panic).  Effects flowing out of the CPU into Display or Timer
  (clearing the screen, the drawn buffer, `set_delay`) are not needed by
  any theorem below and are not tracked in decode's result.
* The `LinkedList` call stack is a `List Nat` whose head is the back of
  the Rust list (`push_back` is cons, `pop_back` takes the head).
* The `HashMap<u8, bool>` key snapshots are association lists; the
  unordered Rust iteration of `check_key_state` is determinised to list
  order (the theorems about it are stated existentially, so they do not
  depend on that order).
-/

namespace Chip8

/-- Recoverable error kinds of the interpreter (the Rust code uses
`Err(String)`; the strings are classified here). `readOob` is
`Memory::read`'s invalid-address error, `fetchOob` is `Cpu::fetch`'s
wrapper around it, `unknown` / `unhandled` carry the offending
instruction, `invalidKey` is `Display::get_key_state`'s rejection. -/
inductive Err where
  | readOob : Err
  | fetchOob : Err
  | unknown : Nat → Err
  | unhandled : Nat → Err
  | invalidKey : Nat → Err
  deriving DecidableEq

/-- Outcome of a fallible interpreter operation: `ok` and `err` are the
two sides of the Rust `Result`; `panicked` marks a Rust panic (index out
of bounds, `unwrap` of `None`, pop of an empty stack). -/
inductive DResult where
  | ok : DResult
  | err : Err → DResult
  | panicked : DResult
  deriving DecidableEq

/-- Memory contents: the `mem: [u8; 4096]` array as a total function. -/
abbrev Mem := Nat → Nat

/-- The architectural state of `struct Cpu` in cpu.rs. -/
structure Cpu where
  pc : Nat
  i : Nat
  v : Nat → Nat
  stack : List Nat
  pressed : List (Nat × Bool)

/-- Data decode reads from the external collaborators, plus their
presence (the `Option<&Display>` / `Option<&mut Memory>` /
`Option<&mut Arc<Timer>>` parameters of `Cpu::decode`). -/
structure Env where
  hasDisp : Bool
  hasMem : Bool
  hasTimer : Bool
  keyState : Nat → Bool
  delay : Nat
  randByte : Nat
  dispBuf : Nat → Nat

/-- Pointwise update of a register file / byte array. -/
def updateV (v : Nat → Nat) (ind a : Nat) : Nat → Nat :=
  fun j => if j = ind then a else v j

/-- `Memory::read` (mem.rs): bounds-checked byte access, error at
addresses at or beyond MEM_SIZE = 4096. -/
def memRead (mem : Mem) (addr : Nat) : Except Err Nat :=
  if 4096 ≤ addr then .error .readOob else .ok (mem addr)

/-- `Memory::get_font_addr` (mem.rs): FONT_ADDRESS + FONT_HEIGHT * (font & 0xF). -/
def getFontAddr (font : Nat) : Nat :=
  80 + 5 * (font % 16)

/-- Direct unchecked array read `self.mem[addr]`; `none` is the Rust
index-out-of-bounds panic. -/
def rawRead (mem : Mem) (addr : Nat) : Option Nat :=
  if addr < 4096 then some (mem addr) else none

/-- Direct unchecked array write `self.mem[addr] = val`; `none` is the
Rust index-out-of-bounds panic. -/
def rawWrite (mem : Mem) (addr val : Nat) : Option Mem :=
  if addr < 4096 then some (updateV mem addr val) else none

/-- A sequence of unchecked writes, stopping at the first panic. -/
def writeSeq : Mem → List (Nat × Nat) → Option Mem
  | mem, [] => some mem
  | mem, (addr, val) :: rest =>
    match rawWrite mem addr val with
    | none => none
    | some m2 => writeSeq m2 rest

/-- A sequence of unchecked reads (the sprite fetch loop of
`Cpu::get_sprite`), stopping at the first panic. -/
def readRows (mem : Mem) (iReg : Nat) : List Nat → Option (List Nat)
  | [] => some []
  | ind :: rest =>
    match rawRead mem (iReg + ind) with
    | none => none
    | some b =>
      match readRows mem iReg rest with
      | none => none
      | some bs => some (b :: bs)

/-- `Cpu::fetch` (cpu.rs): two checked reads at pc and pc+1, big-endian
combine `(byte1 << 8) | byte2` (= 256 * byte1 + byte2 for byte values),
then pc advances by 2.  On a read failure the wrapped fetch error is
returned and the cpu is left as it was. -/
def fetch (cpu : Cpu) (mem : Mem) : Except Err Nat × Cpu :=
  match memRead mem cpu.pc with
  | .error _ => (.error .fetchOob, cpu)
  | .ok byte1 =>
    match memRead mem (cpu.pc + 1) with
    | .error _ => (.error .fetchOob, cpu)
    | .ok byte2 =>
      (.ok (256 * byte1 + byte2), { cpu with pc := (cpu.pc + 2) % 65536 })

/-- `Cpu::set_i`: i := instr & 0xFFF. -/
def setI (cpu : Cpu) (instr : Nat) : Cpu :=
  { cpu with i := instr % 4096 }

/-- `Cpu::set_v`: v[x] := instr & 0xFF. -/
def setV (cpu : Cpu) (instr : Nat) : Cpu :=
  { cpu with v := updateV cpu.v (instr / 256 % 16) (instr % 256) }

/-- `Cpu::add_v`: v[x] := (v[x] + nn) as u8; VF is never touched. -/
def addV (cpu : Cpu) (instr : Nat) : Cpu :=
  let val := instr % 256
  let ind := instr / 256 % 16
  { cpu with v := updateV cpu.v ind ((cpu.v ind + val) % 256) }

/-- `Cpu::handle_jump`: pc := instr & 0xFFF. -/
def handleJump (cpu : Cpu) (instr : Nat) : Cpu :=
  { cpu with pc := instr % 4096 }

/-- `Cpu::subroutine`: push the (already advanced) pc, jump to nnn. -/
def subroutine (cpu : Cpu) (instr : Nat) : Cpu :=
  { cpu with stack := cpu.pc :: cpu.stack, pc := instr % 4096 }

/-- `Cpu::return_routine`: pop the return address; panic on empty stack. -/
def returnRoutine (cpu : Cpu) : DResult × Cpu :=
  match cpu.stack with
  | [] => (.panicked, cpu)
  | addr :: rest => (.ok, { cpu with pc := addr, stack := rest })

/-- `Cpu::skip_vx_equal` (3xnn). -/
def skipVxEqual (cpu : Cpu) (instr : Nat) : Cpu :=
  if cpu.v (instr / 256 % 16) = instr % 256 then
    { cpu with pc := (cpu.pc + 2) % 65536 }
  else cpu

/-- `Cpu::skip_vx_ne` (4xnn). -/
def skipVxNe (cpu : Cpu) (instr : Nat) : Cpu :=
  if cpu.v (instr / 256 % 16) ≠ instr % 256 then
    { cpu with pc := (cpu.pc + 2) % 65536 }
  else cpu

/-- `Cpu::skip_vx_vy_equal` (5xy0). -/
def skipVxVyEqual (cpu : Cpu) (instr : Nat) : Cpu :=
  if cpu.v (instr / 256 % 16) = cpu.v (instr / 16 % 16) then
    { cpu with pc := (cpu.pc + 2) % 65536 }
  else cpu

/-- `Cpu::skip_vx_vy_not_equal` (9xy0). -/
def skipVxVyNotEqual (cpu : Cpu) (instr : Nat) : Cpu :=
  if cpu.v (instr / 256 % 16) ≠ cpu.v (instr / 16 % 16) then
    { cpu with pc := (cpu.pc + 2) % 65536 }
  else cpu

/-- `Cpu::set_vx_to_vy` (8xy0). -/
def setVxToVy (cpu : Cpu) (instr : Nat) : Cpu :=
  { cpu with v := updateV cpu.v (instr / 256 % 16) (cpu.v (instr / 16 % 16)) }

/-- `Cpu::arith_vx_minus_vy` (8xy5): VF := if vx > vy then 1 else 0 first,
then v[x] := vx.wrapping_sub(vy) (= (vx + 256 - vy) % 256 on byte values);
for x = 0xF the second write overwrites the flag. -/
def arithVxMinusVy (cpu : Cpu) (instr : Nat) : Cpu :=
  let xInd := instr / 256 % 16
  let yInd := instr / 16 % 16
  let vx := cpu.v xInd
  let vy := cpu.v yInd
  let v1 := updateV cpu.v 15 (if vy < vx then 1 else 0)
  { cpu with v := updateV v1 xInd ((vx + 256 - vy) % 256) }

/-- `Cpu::arith_vy_minus_vx` (8xy7): symmetric to 8xy5. -/
def arithVyMinusVx (cpu : Cpu) (instr : Nat) : Cpu :=
  let xInd := instr / 256 % 16
  let yInd := instr / 16 % 16
  let vx := cpu.v xInd
  let vy := cpu.v yInd
  let v1 := updateV cpu.v 15 (if vx < vy then 1 else 0)
  { cpu with v := updateV v1 xInd ((vy + 256 - vx) % 256) }

/-- `Cpu::logic_vx_or_vy` (8xy1). -/
def logicVxOrVy (cpu : Cpu) (instr : Nat) : Cpu :=
  let xInd := instr / 256 % 16
  { cpu with v := updateV cpu.v xInd (cpu.v xInd ||| cpu.v (instr / 16 % 16)) }

/-- `Cpu::logic_vx_and_vy` (8xy2). -/
def logicVxAndVy (cpu : Cpu) (instr : Nat) : Cpu :=
  let xInd := instr / 256 % 16
  { cpu with v := updateV cpu.v xInd (cpu.v xInd &&& cpu.v (instr / 16 % 16)) }

/-- `Cpu::logic_vx_xor_vy` (8xy3). -/
def logicVxXorVy (cpu : Cpu) (instr : Nat) : Cpu :=
  let xInd := instr / 256 % 16
  { cpu with v := updateV cpu.v xInd (cpu.v xInd ^^^ cpu.v (instr / 16 % 16)) }

/-- `Cpu::left_shift` (8xyE): VF := old bit 7 first, then v[x] := vx << 1
(truncated to 8 bits); for x = 0xF the result overwrites the flag. -/
def leftShift (cpu : Cpu) (instr : Nat) : Cpu :=
  let xInd := instr / 256 % 16
  let vx := cpu.v xInd
  let v1 := updateV cpu.v 15 (if vx / 128 % 2 = 1 then 1 else 0)
  { cpu with v := updateV v1 xInd (vx * 2 % 256) }

/-- `Cpu::right_shift` (8xy6): VF := old bit 0 first, then v[x] := vx >> 1;
for x = 0xF the result overwrites the flag. -/
def rightShift (cpu : Cpu) (instr : Nat) : Cpu :=
  let xInd := instr / 256 % 16
  let vx := cpu.v xInd
  let v1 := updateV cpu.v 15 (if vx % 2 = 1 then 1 else 0)
  { cpu with v := updateV v1 xInd (vx / 2) }

/-- `Cpu::handle_logic_arith`: dispatch of the 8xy_ family on the low
nibble; unhandled nibbles return the unhandled-instruction error with the
cpu untouched. -/
def handleLogicArith (cpu : Cpu) (instr : Nat) : DResult × Cpu :=
  let low := instr % 16
  if low = 0 then (.ok, setVxToVy cpu instr)
  else if low = 5 then (.ok, arithVxMinusVy cpu instr)
  else if low = 6 then (.ok, rightShift cpu instr)
  else if low = 7 then (.ok, arithVyMinusVx cpu instr)
  else if low = 1 then (.ok, logicVxOrVy cpu instr)
  else if low = 2 then (.ok, logicVxAndVy cpu instr)
  else if low = 3 then (.ok, logicVxXorVy cpu instr)
  else if low = 14 then (.ok, leftShift cpu instr)
  else (.err (.unhandled instr), cpu)

/-- `Cpu::get_font_char`: low nibble of v[x]. -/
def getFontChar (cpu : Cpu) (instr : Nat) : Nat :=
  cpu.v (instr / 256 % 16) % 16

/-- `Cpu::font_character` (Fx29). -/
def fontCharacter (cpu : Cpu) (instr : Nat) : Cpu :=
  { cpu with i := getFontAddr (getFontChar cpu instr) }

/-- `Cpu::store` (Fx55): unchecked writes of v[0..=x] at i, i+1, ...;
`none` is the Rust panic on an out-of-bounds index. -/
def store (cpu : Cpu) (mem : Mem) (instr : Nat) : Option Mem :=
  let ind := instr / 256 % 16
  writeSeq mem ((List.range (ind + 1)).map fun k => (cpu.i + k, cpu.v k))

/-- `Cpu::load` (Fx65): unchecked reads into v[0..=x] from i, i+1, ... -/
def loadRegs (mem : Mem) (iReg : Nat) : (Nat → Nat) → List Nat → Option (Nat → Nat)
  | v, [] => some v
  | v, k :: rest =>
    match rawRead mem (iReg + k) with
    | none => none
    | some b => loadRegs mem iReg (updateV v k b) rest

/-- `Cpu::load` (Fx65), assembled. -/
def load (cpu : Cpu) (mem : Mem) (instr : Nat) : Option Cpu :=
  let ind := instr / 256 % 16
  match loadRegs mem cpu.i cpu.v (List.range (ind + 1)) with
  | none => none
  | some v2 => some { cpu with v := v2 }

/-- `Cpu::bcd` (Fx33): the three decimal digits of v[x] written unchecked
at i, i+1, i+2. -/
def bcd (cpu : Cpu) (mem : Mem) (instr : Nat) : Option Mem :=
  let val := cpu.v (instr / 256 % 16)
  let digit3 := val % 10
  let digit2 := val / 10 % 10
  let digit1 := val / 10 / 10 % 10
  writeSeq mem [(cpu.i, digit1), (cpu.i + 1, digit2), (cpu.i + 2, digit3)]

/-- `Cpu::increment_i` (Fx1E): i := (i + v[x]) & 0xFFFF, VF set to 1 when
the sum leaves the 4096-byte address space. -/
def incrementI (cpu : Cpu) (instr : Nat) : Cpu :=
  let val := cpu.v (instr / 256 % 16)
  let result := cpu.i + val
  { cpu with
      v := if 4096 ≤ result then updateV cpu.v 15 1 else cpu.v,
      i := result % 65536 }

/-- `Cpu::get_delay` (Fx07): v[x] := delay counter. -/
def getDelay (cpu : Cpu) (env : Env) (instr : Nat) : Cpu :=
  { cpu with v := updateV cpu.v (instr / 256 % 16) env.delay }

/-- `Cpu::get_new_key_pressed_state`: sample all 16 keys from the
display.  `Display::get_key_state` never fails for keys 0..=0xF, so the
panic branch of the Rust code is unreachable and not modelled. -/
def getNewKeyPressedState (ks : Nat → Bool) : List (Nat × Bool) :=
  (List.range 16).map fun key => (key, ks key)

/-- Result of scanning the stored snapshot in `Cpu::check_key_state`:
a released key was found, nothing was found, or a stored key is missing
from the new sample (the `unwrap` panic, unreachable in context). -/
inductive FindRes where
  | found : Nat → FindRes
  | nofind : FindRes
  | missing : FindRes
  deriving DecidableEq

/-- The scan loop of `Cpu::check_key_state`: first stored key that was
pressed (`v == true`) and is released in the new sample.  The `&&` of the
Rust condition short-circuits, so the lookup only happens for pressed
entries. -/
def findReleasedKey (newPressed : List (Nat × Bool)) : List (Nat × Bool) → FindRes
  | [] => .nofind
  | (k, pv) :: rest =>
    if pv then
      match List.lookup k newPressed with
      | none => .missing
      | some nv => if nv = false then .found k else findReleasedKey newPressed rest
    else findReleasedKey newPressed rest

/-- `Cpu::check_key_state`: on a release edge write the key into v[x] and
clear the snapshot; otherwise store the new sample and rewind pc by 2
(u16 wrapping subtraction). -/
def checkKeyState (cpu : Cpu) (newPressed : List (Nat × Bool)) (instr : Nat) : DResult × Cpu :=
  match findReleasedKey newPressed cpu.pressed with
  | .found k => (.ok, { cpu with v := updateV cpu.v (instr / 256 % 16) k, pressed := [] })
  | .nofind => (.ok, { cpu with pressed := newPressed, pc := (cpu.pc + 65536 - 2) % 65536 })
  | .missing => (.panicked, cpu)

/-- `Cpu::get_key` (Fx0A). -/
def getKey (cpu : Cpu) (env : Env) (instr : Nat) : DResult × Cpu :=
  checkKeyState cpu (getNewKeyPressedState env.keyState) instr

/-- `Cpu::key_pressed` (Ex9E): `Display::get_key_state` rejects key codes
above 0xF; otherwise skip when pressed. -/
def keyPressed (cpu : Cpu) (env : Env) (instr : Nat) : DResult × Cpu :=
  let vx := cpu.v (instr / 256 % 16)
  if 15 < vx then (.err (.invalidKey vx), cpu)
  else if env.keyState vx then (.ok, { cpu with pc := (cpu.pc + 2) % 65536 })
  else (.ok, cpu)

/-- `Cpu::key_not_pressed` (ExA1). -/
def keyNotPressed (cpu : Cpu) (env : Env) (instr : Nat) : DResult × Cpu :=
  let vx := cpu.v (instr / 256 % 16)
  if 15 < vx then (.err (.invalidKey vx), cpu)
  else if env.keyState vx = false then (.ok, { cpu with pc := (cpu.pc + 2) % 65536 })
  else (.ok, cpu)

/-- `Cpu::handle_e_instructions`. -/
def handleEInstructions (cpu : Cpu) (env : Env) (instr : Nat) : DResult × Cpu :=
  let low := instr % 256
  if low = 158 then keyPressed cpu env instr
  else if low = 161 then keyNotPressed cpu env instr
  else (.err (.unhandled instr), cpu)

/-- `Cpu::random` (Cxnn): random byte from the environment, masked. -/
def random (cpu : Cpu) (env : Env) (instr : Nat) : Cpu :=
  { cpu with v := updateV cpu.v (instr / 256 % 16) ((env.randByte % 256) &&& (instr % 256)) }

/-- The bit of a sprite row byte selected in the draw loop:
`(cur_byte >> (7 - x_ind)) & 1`, MSB first. -/
def spriteBit (byte xInd : Nat) : Nat :=
  byte / 2 ^ (7 - xInd) % 2

/-- Inner loop of `Display::update_buf_sprite` (display.rs): the 8 bits of
one sprite row, MSB first, stopping at the right edge (cur_x == WIDTH);
each 1-bit XORs the pixel, recording a collision when an ON pixel (255) is
turned OFF. -/
def drawBits (x curY byte : Nat) : List Nat → (Nat → Nat) → Nat → (Nat → Nat) × Nat
  | [], buf, vf => (buf, vf)
  | xInd :: rest, buf, vf =>
    if (x + xInd) % 256 = 64 then (buf, vf)
    else if spriteBit byte xInd = 0 then drawBits x curY byte rest buf vf
    else
      let bufInd := 64 * curY + (x + xInd) % 256
      if buf bufInd = 255 then drawBits x curY byte rest (updateV buf bufInd 0) 1
      else drawBits x curY byte rest (updateV buf bufInd 255) vf

/-- Outer loop of `Display::update_buf_sprite`: the sprite rows, stopping
at the bottom edge (cur_y == HEIGHT). -/
def drawRows (x y : Nat) : List Nat → Nat → (Nat → Nat) → Nat → (Nat → Nat) × Nat
  | [], _, buf, vf => (buf, vf)
  | byte :: rest, ind, buf, vf =>
    if (y + ind) % 256 = 32 then (buf, vf)
    else
      let r := drawBits x ((y + ind) % 256) byte (List.range 8) buf vf
      drawRows x y rest (ind + 1) r.1 r.2

/-- `Display::update_buf_sprite`: returns the updated 64×32 buffer
(linear, index = WIDTH * y + x) and the collision flag. -/
def updateBufSprite (buf : Nat → Nat) (x y : Nat) (sprite : List Nat) : (Nat → Nat) × Nat :=
  drawRows x y sprite 0 buf 0

/-- Specification predicate for one row of a draw: index t of the linear
framebuffer is painted by a surviving 1-bit of byte drawn at (x, curY)
among bit positions j0 ≤ u < j0 + n (clipped at column 64). -/
def rowHits (x curY byte j0 n t : Nat) : Prop :=
  ∃ u, j0 ≤ u ∧ u < j0 + n ∧ x + u < 64 ∧ spriteBit byte u = 1 ∧
    t = 64 * curY + (x + u)

/-- Specification predicate for a whole draw: index t of the linear
framebuffer (index = 64 * row + column) is painted by a surviving 1-bit
of the sprite drawn at origin (x, y) starting from row offset i0: sprite
row k paints screen row y + i0 + k, bit j paints column x + j, and
rows/bits past the bottom or right edge (≥ 32 / ≥ 64) paint nothing. -/
def rowsHits (x y i0 : Nat) (rows : List Nat) (t : Nat) : Prop :=
  ∃ k j, k < rows.length ∧ y + i0 + k < 32 ∧ j < 8 ∧ x + j < 64 ∧
    spriteBit (rows.getD k 0) j = 1 ∧ t = 64 * (y + i0 + k) + (x + j)

/-- `Cpu::get_sprite` (Dxyn): origin from v[x] mod WIDTH / v[y] mod
HEIGHT, n rows read unchecked from memory at i. -/
def getSprite (cpu : Cpu) (mem : Mem) (instr : Nat) : Option (Nat × Nat × List Nat) :=
  let x := cpu.v (instr / 256 % 16) % 64
  let y := cpu.v (instr / 16 % 16) % 32
  let n := instr % 16
  match readRows mem cpu.i (List.range n) with
  | none => none
  | some sprite => some (x, y, sprite)

/-- `Cpu::handle_draw` (Dxyn): VF := collision flag of the draw into the
display framebuffer. -/
def handleDraw (cpu : Cpu) (mem : Mem) (env : Env) (instr : Nat) : DResult × Cpu :=
  match getSprite cpu mem instr with
  | none => (.panicked, cpu)
  | some (x, y, sprite) =>
    (.ok, { cpu with v := updateV cpu.v 15 (updateBufSprite env.dispBuf x y sprite).2 })

/-- `Cpu::handle_f_instructions`: dispatch of the Fxnn family on the low
byte.  Note: there is no arm for 0x18 ("set sound"); it falls through to
the unhandled-instruction error.  An absent collaborator makes the
corresponding `unwrap` panic. -/
def handleFInstructions (cpu : Cpu) (mem : Mem) (env : Env) (instr : Nat) :
    DResult × Cpu × Mem :=
  let low := instr % 256
  if low = 10 then
    if env.hasDisp then
      let r := getKey cpu env instr
      (r.1, r.2, mem)
    else (.panicked, cpu, mem)
  else if low = 7 then
    if env.hasTimer then (.ok, getDelay cpu env instr, mem) else (.panicked, cpu, mem)
  else if low = 21 then
    -- Fx15 set_delay: the effect lives in the Timer, the cpu and memory
    -- are unchanged.
    if env.hasTimer then (.ok, cpu, mem) else (.panicked, cpu, mem)
  else if low = 30 then (.ok, incrementI cpu instr, mem)
  else if low = 41 then
    if env.hasMem then (.ok, fontCharacter cpu instr, mem) else (.panicked, cpu, mem)
  else if low = 51 then
    if env.hasMem then
      match bcd cpu mem instr with
      | none => (.panicked, cpu, mem)
      | some m2 => (.ok, cpu, m2)
    else (.panicked, cpu, mem)
  else if low = 85 then
    if env.hasMem then
      match store cpu mem instr with
      | none => (.panicked, cpu, mem)
      | some m2 => (.ok, cpu, m2)
    else (.panicked, cpu, mem)
  else if low = 101 then
    if env.hasMem then
      match load cpu mem instr with
      | none => (.panicked, cpu, mem)
      | some c2 => (.ok, c2, mem)
    else (.panicked, cpu, mem)
  else (.err (.unhandled instr), cpu, mem)

/-- `Cpu::decode` (cpu.rs): the full instruction dispatch.  00E0 only
touches the display (not tracked), 00EE pops the call stack, everything
else dispatches on the top nibble exactly as the Rust match does; nibbles
0 (other than 00E0/00EE) and 0xB fall to the unknown-instruction error. -/
def decode (cpu : Cpu) (mem : Mem) (env : Env) (instr : Nat) : DResult × Cpu × Mem :=
  if instr = 224 then (.ok, cpu, mem)
  else if instr = 238 then
    let r := returnRoutine cpu
    (r.1, r.2, mem)
  else
    let op := instr / 4096 % 16
    if op = 1 then (.ok, handleJump cpu instr, mem)
    else if op = 2 then (.ok, subroutine cpu instr, mem)
    else if op = 3 then (.ok, skipVxEqual cpu instr, mem)
    else if op = 4 then (.ok, skipVxNe cpu instr, mem)
    else if op = 5 then (.ok, skipVxVyEqual cpu instr, mem)
    else if op = 9 then (.ok, skipVxVyNotEqual cpu instr, mem)
    else if op = 10 then (.ok, setI cpu instr, mem)
    else if op = 6 then (.ok, setV cpu instr, mem)
    else if op = 7 then (.ok, addV cpu instr, mem)
    else if op = 8 then
      let r := handleLogicArith cpu instr
      (r.1, r.2, mem)
    else if op = 12 then (.ok, random cpu env instr, mem)
    else if op = 13 then
      -- mem.unwrap() and disp.unwrap(): both must be present.
      if env.hasMem ∧ env.hasDisp then
        let r := handleDraw cpu mem env instr
        (r.1, r.2, mem)
      else (.panicked, cpu, mem)
    else if op = 14 then
      -- `if let Some(disp) = disp`: silently Ok when absent.
      if env.hasDisp then
        let r := handleEInstructions cpu env instr
        (r.1, r.2, mem)
      else (.ok, cpu, mem)
    else if op = 15 then handleFInstructions cpu mem env instr
    else (.err (.unknown instr), cpu, mem)

/-- One iteration of the Orchestrator loop in main.rs: fetch, then decode
on success; a fetch error halts with the cpu as fetch left it. -/
def runStep (cpu : Cpu) (mem : Mem) (env : Env) : DResult × Cpu × Mem :=
  match fetch cpu mem with
  | (.error e, c) => (.err e, c, mem)
  | (.ok instr, c) => decode c mem env instr

/-- A fresh cpu, as built by `Cpu::new`: pc at PROGRAM_ADDRESS, everything
else cleared. -/
def initCpu : Cpu :=
  { pc := 512, i := 0, v := fun _ => 0, stack := [], pressed := [] }

/-- All-zero memory / framebuffer. -/
def memZero : Mem := fun _ => 0

/-- An environment with all collaborators present, no keys pressed, all
counters and the framebuffer zero. -/
def envAll : Env :=
  { hasDisp := true, hasMem := true, hasTimer := true,
    keyState := fun _ => false, delay := 0, randByte := 0, dispBuf := fun _ => 0 }

/-- A cpu whose registers exercise 8xy5 with destination VF: V0 = 3 and
VF = 5. -/
def cpuSub : Cpu :=
  { pc := 512, i := 0, v := fun j => if j = 15 then 5 else if j = 0 then 3 else 0,
    stack := [], pressed := [] }

/-- A cpu whose index register sits at the last valid memory address. -/
def cpuHighI : Cpu :=
  { pc := 512, i := 4095, v := fun _ => 0, stack := [], pressed := [] }

/-- Memory holding a 2nnn call at 0x200 (nnn = 0x300) and 00EE at 0x300. -/
def memCall : Mem := fun a =>
  if a = 512 then 35 else if a = 513 then 0
  else if a = 768 then 0 else if a = 769 then 238 else 0

theorem lookup_sample (ks : Nat → Bool) (k : Nat) (hk : k < 16) :
    List.lookup k (getNewKeyPressedState ks) = some (ks k) := by
  interval_cases k <;> rfl

theorem findReleasedKey_found (ks : Nat → Bool) (old : List (Nat × Bool))
    (hk : ∀ p ∈ old, p.1 < 16)
    (h : ∃ k, (k, true) ∈ old ∧ ks k = false) :
    ∃ k, findReleasedKey (getNewKeyPressedState ks) old = .found k ∧
      (k, true) ∈ old ∧ ks k = false := by
  induction old with
  | nil => simp at h
  | cons p rest ih =>
    obtain ⟨kp, vp⟩ := p
    have hkp : kp < 16 := hk (kp, vp) (by simp)
    have ihr := fun hex => ih (fun q hq => hk q (List.mem_cons_of_mem _ hq)) hex
    cases vp with
    | false =>
      obtain ⟨k0, hmem, hrel⟩ := h
      have hmem' : (k0, true) ∈ rest := by
        rcases List.mem_cons.mp hmem with heq | h2
        · exact absurd (congrArg Prod.snd heq) (by simp)
        · exact h2
      obtain ⟨k, hfind, hmemk, hrelk⟩ := ihr ⟨k0, hmem', hrel⟩
      exact ⟨k, by simpa [findReleasedKey] using hfind,
        List.mem_cons_of_mem _ hmemk, hrelk⟩
    | true =>
      cases hks : ks kp with
      | false =>
        exact ⟨kp, by simp [findReleasedKey, lookup_sample ks kp hkp, hks],
          by simp, hks⟩
      | true =>
        obtain ⟨k0, hmem, hrel⟩ := h
        have hmem' : (k0, true) ∈ rest := by
          rcases List.mem_cons.mp hmem with heq | h2
          · have hkk : k0 = kp := congrArg Prod.fst heq
            rw [hkk, hks] at hrel
            exact absurd hrel (by simp)
          · exact h2
        obtain ⟨k, hfind, hmemk, hrelk⟩ := ihr ⟨k0, hmem', hrel⟩
        refine ⟨k, ?_, List.mem_cons_of_mem _ hmemk, hrelk⟩
        simpa [findReleasedKey, lookup_sample ks kp hkp, hks] using hfind

theorem findReleasedKey_nofind (ks : Nat → Bool) (old : List (Nat × Bool))
    (hk : ∀ p ∈ old, p.1 < 16)
    (h : ∀ k, (k, true) ∈ old → ks k = true) :
    findReleasedKey (getNewKeyPressedState ks) old = .nofind := by
  induction old with
  | nil => rfl
  | cons p rest ih =>
    obtain ⟨kp, vp⟩ := p
    have hkp : kp < 16 := hk (kp, vp) (by simp)
    have ih2 := ih (fun q hq => hk q (List.mem_cons_of_mem _ hq))
      (fun k hkm => h k (List.mem_cons_of_mem _ hkm))
    cases vp with
    | false => simpa [findReleasedKey] using ih2
    | true =>
      have hks : ks kp = true := h kp (by simp)
      simpa [findReleasedKey, lookup_sample ks kp hkp, hks] using ih2

/-- C1: the spec says Fx18 copies register x into the sound counter and
succeeds, but `handle_f_instructions` has no 0x18 arm: for every register
index x and every state, decoding Fx18 (= 61464 + 256 * x) returns the
unhandled-sub-opcode error and leaves cpu and memory untouched; the sound
counter is never written (`Timer::set_sound` has no caller). -/
theorem fx18_unhandled (cpu : Cpu) (mem : Mem) (env : Env) (x : Fin 16) :
    decode cpu mem env (61464 + 256 * x.val) =
      (.err (.unhandled (61464 + 256 * x.val)), cpu, mem) := by
  have hx := x.isLt
  have h1 : 61464 + 256 * x.val ≠ 224 := by omega
  have h2 : 61464 + 256 * x.val ≠ 238 := by omega
  have h3 : (61464 + 256 * x.val) / 4096 % 16 = 15 := by omega
  have h4 : (61464 + 256 * x.val) % 256 = 24 := by omega
  simp [decode, h1, h2, h3, h4, handleFInstructions]

/-- C6: fetch at pc = p returns the big-endian word built from the bytes
at p and p+1 and advances pc by exactly 2 when p < 4095; it fails with
the fetch error when p ≥ 4095. -/
theorem fetch_spec (cpu : Cpu) (mem : Mem) :
    (cpu.pc < 4095 →
      fetch cpu mem =
        (.ok (256 * mem cpu.pc + mem (cpu.pc + 1)), { cpu with pc := cpu.pc + 2 })) ∧
    (4095 ≤ cpu.pc → (fetch cpu mem).1 = .error .fetchOob) := by
  constructor
  · intro h
    have h1 : ¬ 4096 ≤ cpu.pc := by omega
    have h2 : ¬ 4096 ≤ cpu.pc + 1 := by omega
    have h3 : (cpu.pc + 2) % 65536 = cpu.pc + 2 := by omega
    simp [fetch, memRead, h1, h2, h3]
  · intro h
    rcases Nat.lt_or_ge cpu.pc 4096 with h1 | h1
    · have he : cpu.pc = 4095 := by omega
      simp [fetch, memRead, he]
    · simp [fetch, memRead, h1]

/-- C6 witness: a successful fetch at the reset pc and a failing fetch at
pc = 5000, obtained from fetch_spec at concrete inputs. -/
theorem fetch_spec_witness :
    fetch initCpu memZero = (.ok 0, { initCpu with pc := 514 }) ∧
    (fetch { initCpu with pc := 5000 } memZero).1 = .error .fetchOob := by
  constructor
  · have h := (fetch_spec initCpu memZero).1 (by decide)
    simpa [initCpu, memZero] using h
  · exact (fetch_spec { initCpu with pc := 5000 } memZero).2 (by decide)

/-- C7 counterexample: the claim says 7xnn leaves VF unchanged for every
register index x, but for x = 0xF the instruction 7F01 (= 32513) writes
the sum into VF itself: starting from VF = 0 it ends with VF = 1 ≠ 0. -/
theorem addv_vf_counterexample :
    (decode initCpu memZero envAll 32513).2.1.v 15 = 1 ∧ (1 : Nat) ≠ 0 :=
  ⟨by decide, by decide⟩

/-- C7 (amended): 7xnn stores (old value + nn) mod 256 into register x
and leaves every register other than x unchanged — in particular, when
x ≠ 0xF the flag register VF is untouched even when the addition
overflows 8 bits (when x = 0xF the sum itself is written to VF). -/
theorem addv_spec (cpu : Cpu) (mem : Mem) (env : Env) (x : Fin 16) (nn : Nat)
    (hnn : nn < 256) :
    decode cpu mem env (28672 + 256 * x.val + nn) =
      (.ok, { cpu with v := updateV cpu.v x.val ((cpu.v x.val + nn) % 256) }, mem) ∧
    (∀ j, j ≠ x.val → updateV cpu.v x.val ((cpu.v x.val + nn) % 256) j = cpu.v j) := by
  have hx := x.isLt
  have h1 : 28672 + 256 * x.val + nn ≠ 224 := by omega
  have h2 : 28672 + 256 * x.val + nn ≠ 238 := by omega
  have h3 : (28672 + 256 * x.val + nn) / 4096 % 16 = 7 := by omega
  have h4 : (28672 + 256 * x.val + nn) / 256 % 16 = x.val := by omega
  have h5 : (28672 + 256 * x.val + nn) % 256 = nn := by omega
  refine ⟨?_, ?_⟩
  · simp [decode, h1, h2, h3, addV, h4, h5]
  · intro j hj
    simp [updateV, hj]

/-- C7 witness: 7432 (x = 4, nn = 50) at the fresh cpu, via addv_spec. -/
theorem addv_spec_witness :
    decode initCpu memZero envAll 29746 =
      (.ok, { initCpu with v := updateV initCpu.v 4 ((initCpu.v 4 + 50) % 256) },
        memZero) :=
  (addv_spec initCpu memZero envAll ⟨4, by decide⟩ 50 (by decide)).1

/-- C3 counterexample: for 8xy5 with destination x = 0xF the claim fails:
with VF = 5 and V0 = 3 the minuend 5 is strictly greater than the
subtrahend 3, so the claim requires the flag register to be 1 after
executing 8F05 (= 36613), but the stored result overwrites it: VF = 2. -/
theorem sub_flag_counterexample :
    (decode cpuSub memZero envAll 36613).2.1.v 15 = 2 ∧ (2 : Nat) ≠ 1 :=
  ⟨by decide, by decide⟩

/-- C3 (amended): for every destination register x ≠ 0xF and every y,
8xy5 stores (vx − vy) mod 256 into register x and sets the flag register
to 1 iff vx > vy, and 8xy7 symmetrically stores (vy − vx) mod 256 with
flag 1 iff vy > vx.  (For x = 0xF the stored result overwrites the flag;
see C9.) -/
theorem sub_spec (cpu : Cpu) (mem : Mem) (env : Env) (x y : Fin 16)
    (hx : x.val ≠ 15) (hvx : cpu.v x.val < 256) (hvy : cpu.v y.val < 256) :
    ((decode cpu mem env (32773 + 256 * x.val + 16 * y.val)).2.1.v x.val
        = (cpu.v x.val + 256 - cpu.v y.val) % 256 ∧
      (decode cpu mem env (32773 + 256 * x.val + 16 * y.val)).2.1.v 15
        = (if cpu.v y.val < cpu.v x.val then 1 else 0)) ∧
    ((decode cpu mem env (32775 + 256 * x.val + 16 * y.val)).2.1.v x.val
        = (cpu.v y.val + 256 - cpu.v x.val) % 256 ∧
      (decode cpu mem env (32775 + 256 * x.val + 16 * y.val)).2.1.v 15
        = (if cpu.v x.val < cpu.v y.val then 1 else 0)) := by
  have hxlt := x.isLt
  have hylt := y.isLt
  have hx15 : (15 : Nat) ≠ x.val := fun h => hx h.symm
  have h1 : 32773 + 256 * x.val + 16 * y.val ≠ 224 := by omega
  have h2 : 32773 + 256 * x.val + 16 * y.val ≠ 238 := by omega
  have h3 : (32773 + 256 * x.val + 16 * y.val) / 4096 % 16 = 8 := by omega
  have h4 : (32773 + 256 * x.val + 16 * y.val) % 16 = 5 := by omega
  have h5 : (32773 + 256 * x.val + 16 * y.val) / 256 % 16 = x.val := by omega
  have h6 : (32773 + 256 * x.val + 16 * y.val) / 16 % 16 = y.val := by omega
  have g1 : 32775 + 256 * x.val + 16 * y.val ≠ 224 := by omega
  have g2 : 32775 + 256 * x.val + 16 * y.val ≠ 238 := by omega
  have g3 : (32775 + 256 * x.val + 16 * y.val) / 4096 % 16 = 8 := by omega
  have g4 : (32775 + 256 * x.val + 16 * y.val) % 16 = 7 := by omega
  have g5 : (32775 + 256 * x.val + 16 * y.val) / 256 % 16 = x.val := by omega
  have g6 : (32775 + 256 * x.val + 16 * y.val) / 16 % 16 = y.val := by omega
  constructor
  · constructor
    · simp [decode, h1, h2, h3, handleLogicArith, h4, arithVxMinusVy, h5, h6, updateV]
    · simp [decode, h1, h2, h3, handleLogicArith, h4, arithVxMinusVy, h5, h6, updateV,
        hx15]
  · constructor
    · simp [decode, g1, g2, g3, handleLogicArith, g4, arithVyMinusVx, g5, g6, updateV]
    · simp [decode, g1, g2, g3, handleLogicArith, g4, arithVyMinusVx, g5, g6, updateV,
        hx15]

/-- C3 witness: 80F5 (x = 0, y = 0xF) on cpuSub: V0 = (3 − 5) mod 256 =
254 and VF = 0 because 3 is not greater than 5, via sub_spec. -/
theorem sub_spec_witness :
    (decode cpuSub memZero envAll 33013).2.1.v 0 = 254 ∧
    (decode cpuSub memZero envAll 33013).2.1.v 15 = 0 := by
  have h := sub_spec cpuSub memZero envAll ⟨0, by decide⟩ ⟨15, by decide⟩
    (by decide) (by decide) (by decide)
  exact ⟨h.1.1, h.1.2⟩

/-- C9: for the arithmetic and shift opcodes 8xy5, 8xy7, 8xy6, 8xyE with
destination x = 0xF, the flag is written first and then overwritten by
the stored result, so after execution VF holds the 8-bit
arithmetic/shift result, not the borrow or shifted-out bit. -/
theorem flag_overwrite_spec (cpu : Cpu) (mem : Mem) (env : Env) (y : Fin 16) :
    (decode cpu mem env (36613 + 16 * y.val)).2.1.v 15
      = (cpu.v 15 + 256 - cpu.v y.val) % 256 ∧
    (decode cpu mem env (36615 + 16 * y.val)).2.1.v 15
      = (cpu.v y.val + 256 - cpu.v 15) % 256 ∧
    (decode cpu mem env (36614 + 16 * y.val)).2.1.v 15 = cpu.v 15 / 2 ∧
    (decode cpu mem env (36622 + 16 * y.val)).2.1.v 15 = cpu.v 15 * 2 % 256 := by
  have hylt := y.isLt
  refine ⟨?_, ?_, ?_, ?_⟩
  · have h1 : 36613 + 16 * y.val ≠ 224 := by omega
    have h2 : 36613 + 16 * y.val ≠ 238 := by omega
    have h3 : (36613 + 16 * y.val) / 4096 % 16 = 8 := by omega
    have h4 : (36613 + 16 * y.val) % 16 = 5 := by omega
    have h5 : (36613 + 16 * y.val) / 256 % 16 = 15 := by omega
    have h6 : (36613 + 16 * y.val) / 16 % 16 = y.val := by omega
    simp [decode, h1, h2, h3, handleLogicArith, h4, arithVxMinusVy, h5, h6, updateV]
  · have h1 : 36615 + 16 * y.val ≠ 224 := by omega
    have h2 : 36615 + 16 * y.val ≠ 238 := by omega
    have h3 : (36615 + 16 * y.val) / 4096 % 16 = 8 := by omega
    have h4 : (36615 + 16 * y.val) % 16 = 7 := by omega
    have h5 : (36615 + 16 * y.val) / 256 % 16 = 15 := by omega
    have h6 : (36615 + 16 * y.val) / 16 % 16 = y.val := by omega
    simp [decode, h1, h2, h3, handleLogicArith, h4, arithVyMinusVx, h5, h6, updateV]
  · have h1 : 36614 + 16 * y.val ≠ 224 := by omega
    have h2 : 36614 + 16 * y.val ≠ 238 := by omega
    have h3 : (36614 + 16 * y.val) / 4096 % 16 = 8 := by omega
    have h4 : (36614 + 16 * y.val) % 16 = 6 := by omega
    have h5 : (36614 + 16 * y.val) / 256 % 16 = 15 := by omega
    simp [decode, h1, h2, h3, handleLogicArith, h4, rightShift, h5, updateV]
  · have h1 : 36622 + 16 * y.val ≠ 224 := by omega
    have h2 : 36622 + 16 * y.val ≠ 238 := by omega
    have h3 : (36622 + 16 * y.val) / 4096 % 16 = 8 := by omega
    have h4 : (36622 + 16 * y.val) % 16 = 14 := by omega
    have h5 : (36622 + 16 * y.val) / 256 % 16 = 15 := by omega
    simp [decode, h1, h2, h3, handleLogicArith, h4, leftShift, h5, updateV]

/-- C4: for every invocation of the Fx0A key-wait handler: when some key
recorded as pressed in the stored snapshot is released in the newly
sampled 16-key state, that key's code is written into register x, the
snapshot is cleared and pc is not rewound; otherwise the new sample
replaces the snapshot and pc is decremented by exactly 2.  The stored
snapshot always holds key codes < 16 (it is empty or a previous full
sample), which is the hypothesis hk. -/
theorem getkey_spec (cpu : Cpu) (env : Env) (instr : Nat)
    (hk : ∀ p ∈ cpu.pressed, p.1 < 16)
    (hpc : 2 ≤ cpu.pc) (hpc2 : cpu.pc < 65536) :
    ((∃ k, (k, true) ∈ cpu.pressed ∧ env.keyState k = false) →
      (getKey cpu env instr).1 = .ok ∧
      ∃ k, (k, true) ∈ cpu.pressed ∧ env.keyState k = false ∧
        (getKey cpu env instr).2.v = updateV cpu.v (instr / 256 % 16) k ∧
        (getKey cpu env instr).2.pressed = [] ∧
        (getKey cpu env instr).2.pc = cpu.pc) ∧
    ((∀ k, (k, true) ∈ cpu.pressed → env.keyState k = true) →
      (getKey cpu env instr).1 = .ok ∧
      (getKey cpu env instr).2.pressed = getNewKeyPressedState env.keyState ∧
      (getKey cpu env instr).2.pc + 2 = cpu.pc ∧
      (getKey cpu env instr).2.v = cpu.v) := by
  constructor
  · intro h
    obtain ⟨k, hfind, hmem, hrel⟩ := findReleasedKey_found env.keyState cpu.pressed hk h
    refine ⟨?_, k, hmem, hrel, ?_, ?_, ?_⟩ <;>
      simp [getKey, checkKeyState, hfind]
  · intro h
    have hfind := findReleasedKey_nofind env.keyState cpu.pressed hk h
    refine ⟨?_, ?_, ?_, ?_⟩
    · simp [getKey, checkKeyState, hfind]
    · simp [getKey, checkKeyState, hfind]
    · simp [getKey, checkKeyState, hfind]
      omega
    · simp [getKey, checkKeyState, hfind]

/-- C4 witness: with an empty stored snapshot (fresh cpu) the handler
takes the rewind branch and pc goes from 0x200 to 0x1FE, via getkey_spec
for instruction F40A. -/
theorem getkey_spec_witness :
    (getKey initCpu envAll 62474).2.pc + 2 = 512 := by
  have h := (getkey_spec initCpu envAll 62474 (by simp [initCpu]) (by decide)
    (by decide)).2 (by simp [initCpu])
  simpa [initCpu] using h.2.2.1

/-- C8: from any state whose memory holds a 2nnn call at pc and 00EE at
nnn (both fetchable), fetching and executing the call and then fetching
and executing the return leaves pc at the address of the instruction
directly after the call (the call pushes the already-advanced pc, the
return pops it); the call stack and the memory are restored. -/
theorem call_ret_spec (cpu : Cpu) (mem : Mem) (env : Env) (nnn : Nat)
    (hpc : cpu.pc ≤ 4094) (hn : nnn ≤ 4094)
    (h1 : mem cpu.pc = 32 + nnn / 256) (h2 : mem (cpu.pc + 1) = nnn % 256)
    (h3 : mem nnn = 0) (h4 : mem (nnn + 1) = 238) :
    (runStep cpu mem env).1 = .ok ∧
    (runStep (runStep cpu mem env).2.1 mem env).1 = .ok ∧
    (runStep (runStep cpu mem env).2.1 mem env).2.1.pc = cpu.pc + 2 ∧
    (runStep (runStep cpu mem env).2.1 mem env).2.1.stack = cpu.stack ∧
    (runStep (runStep cpu mem env).2.1 mem env).2.2 = mem := by
  have hr1 : ¬ 4096 ≤ cpu.pc := by omega
  have hr2 : ¬ 4096 ≤ cpu.pc + 1 := by omega
  have hadv : (cpu.pc + 2) % 65536 = cpu.pc + 2 := by omega
  have hbe : 256 * (32 + nnn / 256) + nnn % 256 = 8192 + nnn := by omega
  have hd1 : 8192 + nnn ≠ 224 := by omega
  have hd2 : 8192 + nnn ≠ 238 := by omega
  have hop : (8192 + nnn) / 4096 % 16 = 2 := by omega
  have hmod : (8192 + nnn) % 4096 = nnn := by omega
  have hn1 : ¬ 4096 ≤ nnn := by omega
  have hn2 : ¬ 4096 ≤ nnn + 1 := by omega
  have s1 : runStep cpu mem env =
      (.ok, { cpu with pc := nnn, stack := (cpu.pc + 2) :: cpu.stack }, mem) := by
    simp [runStep, fetch, memRead, hr1, hr2, h1, h2, hbe, hadv, decode, hd1, hd2,
      hop, subroutine, hmod]
  have s2 : runStep { cpu with pc := nnn, stack := (cpu.pc + 2) :: cpu.stack } mem env =
      (.ok, { cpu with pc := cpu.pc + 2 }, mem) := by
    simp [runStep, fetch, memRead, hn1, hn2, h3, h4, decode, returnRoutine]
  simp [s1, s2]

/-- C8 witness: the fresh cpu with a 2,0x300 call at 0x200 and 00EE at
0x300 ends with pc = 0x202, via call_ret_spec. -/
theorem call_ret_spec_witness :
    (runStep (runStep initCpu memCall envAll).2.1 memCall envAll).2.1.pc = 514 := by
  have h := call_ret_spec initCpu memCall envAll 768 (by decide) (by decide)
    (by decide) (by decide) (by decide) (by decide)
  simpa [initCpu] using h.2.2.1

theorem handleLogicArith_err (cpu : Cpu) (instr : Nat) (e : Err)
    (h : (handleLogicArith cpu instr).1 = .err e) :
    (handleLogicArith cpu instr).2 = cpu := by
  simp only [handleLogicArith] at h ⊢
  split_ifs at h ⊢ <;> simp_all

theorem returnRoutine_ne_err (cpu : Cpu) (e : Err) :
    (returnRoutine cpu).1 ≠ .err e := by
  cases h : cpu.stack <;> simp [returnRoutine, h]

theorem checkKeyState_ne_err (cpu : Cpu) (np : List (Nat × Bool)) (instr : Nat) (e : Err) :
    (checkKeyState cpu np instr).1 ≠ .err e := by
  cases h : findReleasedKey np cpu.pressed <;> simp [checkKeyState, h]

theorem getKey_ne_err (cpu : Cpu) (env : Env) (instr : Nat) (e : Err) :
    (getKey cpu env instr).1 ≠ .err e :=
  checkKeyState_ne_err cpu (getNewKeyPressedState env.keyState) instr e

theorem handleDraw_ne_err (cpu : Cpu) (mem : Mem) (env : Env) (instr : Nat) (e : Err) :
    (handleDraw cpu mem env instr).1 ≠ .err e := by
  rcases h : getSprite cpu mem instr with _ | ⟨x, y, s⟩ <;> simp [handleDraw, h]

theorem keyPressed_err (cpu : Cpu) (env : Env) (instr : Nat) (e : Err)
    (h : (keyPressed cpu env instr).1 = .err e) :
    (keyPressed cpu env instr).2 = cpu := by
  simp only [keyPressed] at h ⊢
  split_ifs at h ⊢ <;> simp_all

theorem keyNotPressed_err (cpu : Cpu) (env : Env) (instr : Nat) (e : Err)
    (h : (keyNotPressed cpu env instr).1 = .err e) :
    (keyNotPressed cpu env instr).2 = cpu := by
  simp only [keyNotPressed] at h ⊢
  split_ifs at h ⊢ <;> simp_all

theorem handleEInstructions_err (cpu : Cpu) (env : Env) (instr : Nat) (e : Err)
    (h : (handleEInstructions cpu env instr).1 = .err e) :
    (handleEInstructions cpu env instr).2 = cpu := by
  simp only [handleEInstructions] at h ⊢
  split_ifs at h ⊢
  · exact keyPressed_err _ _ _ _ h
  · exact keyNotPressed_err _ _ _ _ h
  · simp_all

set_option maxHeartbeats 1000000 in
theorem handleFInstructions_err (cpu : Cpu) (mem : Mem) (env : Env) (instr : Nat) (e : Err)
    (h : (handleFInstructions cpu mem env instr).1 = .err e) :
    (handleFInstructions cpu mem env instr).2.1 = cpu ∧
    (handleFInstructions cpu mem env instr).2.2 = mem := by
  simp only [handleFInstructions] at h ⊢
  split_ifs at h ⊢
  · exact absurd h (getKey_ne_err _ _ _ _)
  · rcases hb : bcd cpu mem instr with _ | m2 <;> simp [hb] at h
  · rcases hb : store cpu mem instr with _ | m2 <;> simp [hb] at h
  · rcases hb : load cpu mem instr with _ | c2 <;> simp [hb] at h
  · exact ⟨rfl, rfl⟩

theorem fetch_err_state (cpu : Cpu) (mem : Mem) (e : Err)
    (h : (fetch cpu mem).1 = .error e) : (fetch cpu mem).2 = cpu := by
  simp only [fetch, memRead] at h ⊢
  split_ifs at h ⊢ <;> simp_all

set_option maxHeartbeats 1000000 in
theorem decode_err_state (cpu : Cpu) (mem : Mem) (env : Env) (instr : Nat) (e : Err)
    (c : Cpu) (m : Mem) (h : decode cpu mem env instr = (.err e, c, m)) :
    c = cpu ∧ m = mem := by
  by_cases h224 : instr = 224
  · simp [decode, h224] at h
  by_cases h238 : instr = 238
  · rw [decode, if_neg h224, if_pos h238] at h
    simp only [Prod.mk.injEq] at h
    exact absurd h.1 (returnRoutine_ne_err _ _)
  rw [decode, if_neg h224, if_neg h238] at h
  have hcase : instr / 4096 % 16 = 0 ∨ instr / 4096 % 16 = 1 ∨ instr / 4096 % 16 = 2 ∨
      instr / 4096 % 16 = 3 ∨ instr / 4096 % 16 = 4 ∨ instr / 4096 % 16 = 5 ∨
      instr / 4096 % 16 = 6 ∨ instr / 4096 % 16 = 7 ∨ instr / 4096 % 16 = 8 ∨
      instr / 4096 % 16 = 9 ∨ instr / 4096 % 16 = 10 ∨ instr / 4096 % 16 = 11 ∨
      instr / 4096 % 16 = 12 ∨ instr / 4096 % 16 = 13 ∨ instr / 4096 % 16 = 14 ∨
      instr / 4096 % 16 = 15 := by omega
  rcases hcase with hc | hc | hc | hc | hc | hc | hc | hc | hc | hc | hc | hc | hc | hc | hc | hc
  · simp [hc] at h
    exact ⟨h.2.1.symm, h.2.2.symm⟩
  · simp [hc] at h
  · simp [hc] at h
  · simp [hc] at h
  · simp [hc] at h
  · simp [hc] at h
  · simp [hc] at h
  · simp [hc] at h
  · simp [hc] at h
    exact ⟨by rw [← h.2.1]; exact handleLogicArith_err _ _ _ h.1, h.2.2.symm⟩
  · simp [hc] at h
  · simp [hc] at h
  · simp [hc] at h
    exact ⟨h.2.1.symm, h.2.2.symm⟩
  · simp [hc] at h
  · by_cases hmd : env.hasMem = true ∧ env.hasDisp = true
    · simp [hc, hmd] at h
      exact absurd h.1 (handleDraw_ne_err _ _ _ _ _)
    · simp [hc, hmd] at h
  · by_cases hd : env.hasDisp = true
    · simp [hc, hd] at h
      exact ⟨by rw [← h.2.1]; exact handleEInstructions_err _ _ _ _ h.1, h.2.2.symm⟩
    · simp [hc, hd] at h
  · simp [hc] at h
    have h1 : (handleFInstructions cpu mem env instr).1 = .err e := by rw [h]
    have h2 := handleFInstructions_err _ _ _ _ _ h1
    constructor
    · rw [← h2.1, h]
    · rw [← h2.2, h]

/-- C10: errors are atomic.  Whenever fetch returns an error the cpu is
unchanged, and whenever decode returns an error (unknown opcode,
unhandled sub-opcode, invalid key code in Ex9E/ExA1) the whole cpu state
— pc, index register, all registers, the call stack, the key-wait
snapshot — and the memory are unchanged. -/
theorem err_atomic :
    (∀ (cpu : Cpu) (mem : Mem) (e : Err),
      (fetch cpu mem).1 = .error e → (fetch cpu mem).2 = cpu) ∧
    (∀ (cpu : Cpu) (mem : Mem) (env : Env) (instr : Nat) (e : Err) (c : Cpu) (m : Mem),
      decode cpu mem env instr = (.err e, c, m) → c = cpu ∧ m = mem) :=
  ⟨fetch_err_state, decode_err_state⟩

/-- C10 witness: instruction 0x8008 (the repository's own decode_invalid
test input) errs and leaves the fresh cpu and memory unchanged, via
err_atomic. -/
theorem err_atomic_witness :
    (decode initCpu memZero envAll 32776).1 = .err (.unhandled 32776) ∧
    initCpu = initCpu ∧ memZero = memZero :=
  ⟨by rfl,
    err_atomic.2 initCpu memZero envAll 32776 (.unhandled 32776) initCpu memZero (by rfl)⟩

theorem writeSeq_eq_none (l : List (Nat × Nat)) : ∀ mem : Mem,
    writeSeq mem l = none ↔ ∃ p ∈ l, 4096 ≤ p.1 := by
  induction l with
  | nil => intro mem; simp [writeSeq]
  | cons p rest ih =>
    intro mem
    obtain ⟨a, val⟩ := p
    by_cases ha : a < 4096
    · have hstep : writeSeq mem ((a, val) :: rest) = writeSeq (updateV mem a val) rest := by
        simp [writeSeq, rawWrite, ha]
      rw [hstep, ih]
      constructor
      · rintro ⟨q, hq, hqa⟩
        exact ⟨q, List.mem_cons_of_mem _ hq, hqa⟩
      · rintro ⟨q, hq, hqa⟩
        rcases List.mem_cons.mp hq with heq | hmem
        · subst heq
          omega
        · exact ⟨q, hmem, hqa⟩
    · have hstep : writeSeq mem ((a, val) :: rest) = none := by
        simp [writeSeq, rawWrite, ha]
      simp only [hstep, true_iff]
      exact ⟨(a, val), by simp, by omega⟩

theorem store_eq_none (cpu : Cpu) (mem : Mem) (instr : Nat) :
    store cpu mem instr = none ↔ 4096 ≤ cpu.i + instr / 256 % 16 := by
  rw [store, writeSeq_eq_none]
  constructor
  · rintro ⟨p, hp, hpa⟩
    simp only [List.mem_map, List.mem_range] at hp
    obtain ⟨k, hk, rfl⟩ := hp
    simp only at hpa
    omega
  · intro hge
    refine ⟨(cpu.i + instr / 256 % 16, cpu.v (instr / 256 % 16)), ?_, by simpa using hge⟩
    simp only [List.mem_map, List.mem_range]
    exact ⟨instr / 256 % 16, by omega, rfl⟩

theorem bcd_eq_none (cpu : Cpu) (mem : Mem) (instr : Nat) :
    bcd cpu mem instr = none ↔ 4094 ≤ cpu.i := by
  rw [bcd, writeSeq_eq_none]
  constructor
  · rintro ⟨p, hp, hpa⟩
    simp only [List.mem_cons, List.not_mem_nil, or_false] at hp
    rcases hp with rfl | rfl | rfl <;> simp only at hpa <;> omega
  · intro hge
    exact ⟨(cpu.i + 2, cpu.v (instr / 256 % 16) % 10), by simp, by simp; omega⟩

theorem loadRegs_eq_none (mem : Mem) (iReg : Nat) (l : List Nat) : ∀ v : Nat → Nat,
    loadRegs mem iReg v l = none ↔ ∃ k ∈ l, 4096 ≤ iReg + k := by
  induction l with
  | nil => intro v; simp [loadRegs]
  | cons k rest ih =>
    intro v
    by_cases hk : iReg + k < 4096
    · have hstep : loadRegs mem iReg v (k :: rest)
          = loadRegs mem iReg (updateV v k (mem (iReg + k))) rest := by
        simp [loadRegs, rawRead, hk]
      rw [hstep, ih]
      constructor
      · rintro ⟨q, hq, hqa⟩
        exact ⟨q, List.mem_cons_of_mem _ hq, hqa⟩
      · rintro ⟨q, hq, hqa⟩
        rcases List.mem_cons.mp hq with heq | hmem
        · subst heq
          omega
        · exact ⟨q, hmem, hqa⟩
    · have hstep : loadRegs mem iReg v (k :: rest) = none := by
        simp [loadRegs, rawRead, hk]
      simp only [hstep, true_iff]
      exact ⟨k, by simp, by omega⟩

theorem load_eq_none (cpu : Cpu) (mem : Mem) (instr : Nat) :
    load cpu mem instr = none ↔ 4096 ≤ cpu.i + instr / 256 % 16 := by
  constructor
  · intro h
    rcases hl : loadRegs mem cpu.i cpu.v (List.range (instr / 256 % 16 + 1)) with _ | v2
    · obtain ⟨k, hk, hko⟩ := (loadRegs_eq_none mem cpu.i _ cpu.v).mp hl
      simp only [List.mem_range] at hk
      omega
    · simp [load, hl] at h
  · intro hge
    have hl : loadRegs mem cpu.i cpu.v (List.range (instr / 256 % 16 + 1)) = none :=
      (loadRegs_eq_none mem cpu.i _ cpu.v).mpr
        ⟨instr / 256 % 16, by simp [List.mem_range], hge⟩
    simp [load, hl]

theorem readRows_eq_none (mem : Mem) (iReg : Nat) (l : List Nat) :
    readRows mem iReg l = none ↔ ∃ k ∈ l, 4096 ≤ iReg + k := by
  induction l with
  | nil => simp [readRows]
  | cons k rest ih =>
    by_cases hk : iReg + k < 4096
    · constructor
      · intro hnone
        have hrest : readRows mem iReg rest = none := by
          rcases hr : readRows mem iReg rest with _ | bs
          · rfl
          · simp [readRows, rawRead, hk, hr] at hnone
        obtain ⟨q, hq, hqa⟩ := ih.mp hrest
        exact ⟨q, List.mem_cons_of_mem _ hq, hqa⟩
      · rintro ⟨q, hq, hqa⟩
        rcases List.mem_cons.mp hq with heq | hmem
        · subst heq
          omega
        · have hrest := ih.mpr ⟨q, hmem, hqa⟩
          simp [readRows, rawRead, hk, hrest]
    · constructor
      · intro _
        exact ⟨k, by simp, by omega⟩
      · intro _
        simp [readRows, rawRead, hk]

theorem getSprite_eq_none (cpu : Cpu) (mem : Mem) (instr : Nat) :
    getSprite cpu mem instr = none ↔ ∃ k ∈ List.range (instr % 16), 4096 ≤ cpu.i + k := by
  constructor
  · intro h
    rcases hr : readRows mem cpu.i (List.range (instr % 16)) with _ | s
    · exact (readRows_eq_none _ _ _).mp hr
    · simp [getSprite, hr] at h
  · intro hex
    simp [getSprite, (readRows_eq_none _ _ _).mpr hex]

/-- C2 counterexample: the claim says every memory access at an address
≥ 4096 during instruction execution takes the recoverable error branch,
but F155 (store V0..V1) with i = 4095 writes to address 4096 through
unchecked indexing — the execution panics (aborts); it does not return
an error. -/
theorem store_oob_counterexample :
    (decode cpuHighI memZero envAll 61781).1 = .panicked ∧
    DResult.panicked ≠ DResult.err Err.readOob :=
  ⟨by decide, by decide⟩

/-- C2 (amended): only accesses made through `Memory::read` (the
instruction fetch path) fail with the recoverable OutOfBounds error at
addresses ≥ 4096; the register store/load Fx55/Fx65, the BCD store Fx33
and the sprite fetch of Dxyn index memory unchecked and panic (abort the
process) as soon as they touch an address ≥ 4096: Fx55/Fx65 exactly when
i + x ≥ 4096, Fx33 when i ≥ 4094, Dxyn (n ≥ 1 rows) when i + n − 1
≥ 4096. -/
theorem oob_behaviour :
    (∀ (mem : Mem) (addr : Nat), 4096 ≤ addr → memRead mem addr = .error .readOob) ∧
    (∀ (cpu : Cpu) (mem : Mem) (env : Env) (x : Fin 16), env.hasMem = true →
      4096 ≤ cpu.i + x.val →
      decode cpu mem env (61525 + 256 * x.val) = (.panicked, cpu, mem)) ∧
    (∀ (cpu : Cpu) (mem : Mem) (env : Env) (x : Fin 16), env.hasMem = true →
      4096 ≤ cpu.i + x.val →
      decode cpu mem env (61541 + 256 * x.val) = (.panicked, cpu, mem)) ∧
    (∀ (cpu : Cpu) (mem : Mem) (env : Env) (x : Fin 16), env.hasMem = true →
      4094 ≤ cpu.i →
      decode cpu mem env (61491 + 256 * x.val) = (.panicked, cpu, mem)) ∧
    (∀ (cpu : Cpu) (mem : Mem) (env : Env) (x y n : Fin 16), env.hasMem = true →
      env.hasDisp = true → 1 ≤ n.val → 4096 ≤ cpu.i + (n.val - 1) →
      decode cpu mem env (53248 + 256 * x.val + 16 * y.val + n.val)
        = (.panicked, cpu, mem)) := by
  refine ⟨?_, ?_, ?_, ?_, ?_⟩
  · intro mem addr h
    simp [memRead, h]
  · intro cpu mem env x hm hi
    have hx := x.isLt
    have h1 : 61525 + 256 * x.val ≠ 224 := by omega
    have h2 : 61525 + 256 * x.val ≠ 238 := by omega
    have h3 : (61525 + 256 * x.val) / 4096 % 16 = 15 := by omega
    have h4 : (61525 + 256 * x.val) % 256 = 85 := by omega
    have h5 : (61525 + 256 * x.val) / 256 % 16 = x.val := by omega
    have hnone : store cpu mem (61525 + 256 * x.val) = none := by
      rw [store_eq_none, h5]
      omega
    simp [decode, h1, h2, h3, handleFInstructions, h4, hm, hnone]
  · intro cpu mem env x hm hi
    have hx := x.isLt
    have h1 : 61541 + 256 * x.val ≠ 224 := by omega
    have h2 : 61541 + 256 * x.val ≠ 238 := by omega
    have h3 : (61541 + 256 * x.val) / 4096 % 16 = 15 := by omega
    have h4 : (61541 + 256 * x.val) % 256 = 101 := by omega
    have h5 : (61541 + 256 * x.val) / 256 % 16 = x.val := by omega
    have hnone : load cpu mem (61541 + 256 * x.val) = none := by
      rw [load_eq_none, h5]
      omega
    simp [decode, h1, h2, h3, handleFInstructions, h4, hm, hnone]
  · intro cpu mem env x hm hi
    have hx := x.isLt
    have h1 : 61491 + 256 * x.val ≠ 224 := by omega
    have h2 : 61491 + 256 * x.val ≠ 238 := by omega
    have h3 : (61491 + 256 * x.val) / 4096 % 16 = 15 := by omega
    have h4 : (61491 + 256 * x.val) % 256 = 51 := by omega
    have hnone : bcd cpu mem (61491 + 256 * x.val) = none := by
      rw [bcd_eq_none]
      omega
    simp [decode, h1, h2, h3, handleFInstructions, h4, hm, hnone]
  · intro cpu mem env x y n hm hd hn hi
    have hx := x.isLt
    have hy := y.isLt
    have hnlt := n.isLt
    have h1 : 53248 + 256 * x.val + 16 * y.val + n.val ≠ 224 := by omega
    have h2 : 53248 + 256 * x.val + 16 * y.val + n.val ≠ 238 := by omega
    have h3 : (53248 + 256 * x.val + 16 * y.val + n.val) / 4096 % 16 = 13 := by omega
    have h4 : (53248 + 256 * x.val + 16 * y.val + n.val) % 16 = n.val := by omega
    have hnone : getSprite cpu mem (53248 + 256 * x.val + 16 * y.val + n.val) = none := by
      rw [getSprite_eq_none, h4]
      exact ⟨n.val - 1, by simp [List.mem_range]; omega, by omega⟩
    simp [decode, h1, h2, h3, hm, hd, handleDraw, hnone]

/-- C2 witness: F155 with i = 4095 panics with cpu and memory as they
were, via oob_behaviour. -/
theorem oob_behaviour_witness :
    decode cpuHighI memZero envAll 61781 = (.panicked, cpuHighI, memZero) :=
  oob_behaviour.2.1 cpuHighI memZero envAll ⟨1, by decide⟩ (by decide) (by decide)

theorem drawBits_spec (x curY byte : Nat) (hx : x < 64) :
    ∀ n j0 buf vf, x + j0 ≤ 64 →
      (∀ t, rowHits x curY byte j0 n t →
        (drawBits x curY byte (List.range' j0 n) buf vf).1 t
          = if buf t = 255 then 0 else 255) ∧
      (∀ t, ¬ rowHits x curY byte j0 n t →
        (drawBits x curY byte (List.range' j0 n) buf vf).1 t = buf t) ∧
      ((∃ t, rowHits x curY byte j0 n t ∧ buf t = 255) →
        (drawBits x curY byte (List.range' j0 n) buf vf).2 = 1) ∧
      ((¬ ∃ t, rowHits x curY byte j0 n t ∧ buf t = 255) →
        (drawBits x curY byte (List.range' j0 n) buf vf).2 = vf) := by
  intro n
  induction n with
  | zero =>
    intro j0 buf vf hj
    refine ⟨?_, ?_, ?_, ?_⟩
    · rintro t ⟨u, h1, h2, h3, h4, h5⟩
      omega
    · intro t _
      rfl
    · rintro ⟨t, ⟨u, h1, h2, h3, h4, h5⟩, h255⟩
      omega
    · intro _
      rfl
  | succ n ih =>
    intro j0 buf vf hj
    rw [List.range'_succ]
    by_cases hbreak : x + j0 = 64
    · have hcond : (x + j0) % 256 = 64 := by omega
      have hstep : drawBits x curY byte (j0 :: List.range' (j0 + 1) n) buf vf
          = (buf, vf) := by
        simp [drawBits, hcond]
      rw [hstep]
      refine ⟨?_, ?_, ?_, ?_⟩
      · rintro t ⟨u, h1, h2, h3, h4, h5⟩
        omega
      · intro t _
        rfl
      · rintro ⟨t, ⟨u, h1, h2, h3, h4, h5⟩, h255⟩
        omega
      · intro _
        rfl
    · have hlt : x + j0 < 64 := by omega
      have hcond : ¬ (x + j0) % 256 = 64 := by omega
      have hmod : (x + j0) % 256 = x + j0 := by omega
      by_cases hbit : spriteBit byte j0 = 0
      · have hstep : drawBits x curY byte (j0 :: List.range' (j0 + 1) n) buf vf
            = drawBits x curY byte (List.range' (j0 + 1) n) buf vf := by
          simp [drawBits, hcond, hbit]
        obtain ⟨ih1, ih2, ih3, ih4⟩ := ih (j0 + 1) buf vf (by omega)
        rw [hstep]
        refine ⟨?_, ?_, ?_, ?_⟩
        · rintro t ⟨u, h1, h2, h3, h4, h5⟩
          have hu : j0 + 1 ≤ u := by
            rcases Nat.eq_or_lt_of_le h1 with heq | hlt2
            · rw [← heq] at h4
              omega
            · omega
          exact ih1 t ⟨u, hu, by omega, h3, h4, h5⟩
        · intro t ht
          refine ih2 t ?_
          rintro ⟨u, h1, h2, h3, h4, h5⟩
          exact ht ⟨u, by omega, by omega, h3, h4, h5⟩
        · rintro ⟨t, ⟨u, h1, h2, h3, h4, h5⟩, h255⟩
          have hu : j0 + 1 ≤ u := by
            rcases Nat.eq_or_lt_of_le h1 with heq | hlt2
            · rw [← heq] at h4
              omega
            · omega
          exact ih3 ⟨t, ⟨u, hu, by omega, h3, h4, h5⟩, h255⟩
        · intro hno
          refine ih4 ?_
          rintro ⟨t, ⟨u, h1, h2, h3, h4, h5⟩, h255⟩
          exact hno ⟨t, ⟨u, by omega, by omega, h3, h4, h5⟩, h255⟩
      · have hbit1 : spriteBit byte j0 = 1 := by
          have hb2 : spriteBit byte j0 < 2 := Nat.mod_lt _ (by norm_num)
          omega
        by_cases hpix : buf (64 * curY + (x + j0)) = 255
        · have hstep : drawBits x curY byte (j0 :: List.range' (j0 + 1) n) buf vf
              = drawBits x curY byte (List.range' (j0 + 1) n)
                  (updateV buf (64 * curY + (x + j0)) 0) 1 := by
            simp [drawBits, hcond, hbit, hmod, hpix, hbreak]
          obtain ⟨ih1, ih2, ih3, ih4⟩ :=
            ih (j0 + 1) (updateV buf (64 * curY + (x + j0)) 0) 1 (by omega)
          rw [hstep]
          refine ⟨?_, ?_, ?_, ?_⟩
          · rintro t ⟨u, h1, h2, h3, h4, h5⟩
            subst h5
            rcases Nat.eq_or_lt_of_le h1 with heq | hlt2
            · have hteq : 64 * curY + (x + u) = 64 * curY + (x + j0) := by omega
              rw [hteq]
              have hnr : ¬ rowHits x curY byte (j0 + 1) n (64 * curY + (x + j0)) := by
                rintro ⟨u', hu1, hu2, hu3, hu4, hu5⟩
                omega
              rw [ih2 _ hnr]
              simp [updateV, hpix]
            · have hne : 64 * curY + (x + u) ≠ 64 * curY + (x + j0) := by omega
              rw [ih1 _ ⟨u, by omega, by omega, h3, h4, rfl⟩]
              simp [updateV, hne]
          · intro t ht
            have htj : t ≠ 64 * curY + (x + j0) := by
              intro heq
              exact ht ⟨j0, Nat.le_refl _, by omega, hlt, hbit1, heq⟩
            have hnr : ¬ rowHits x curY byte (j0 + 1) n t := by
              rintro ⟨u, h1, h2, h3, h4, h5⟩
              exact ht ⟨u, by omega, by omega, h3, h4, h5⟩
            rw [ih2 _ hnr]
            simp [updateV, htj]
          · intro _
            by_cases hrc : ∃ t, rowHits x curY byte (j0 + 1) n t ∧
                updateV buf (64 * curY + (x + j0)) 0 t = 255
            · exact ih3 hrc
            · exact ih4 hrc
          · intro hno
            exact absurd
              ⟨64 * curY + (x + j0), ⟨j0, Nat.le_refl _, by omega, hlt, hbit1, rfl⟩, hpix⟩
              hno
        · have hstep : drawBits x curY byte (j0 :: List.range' (j0 + 1) n) buf vf
              = drawBits x curY byte (List.range' (j0 + 1) n)
                  (updateV buf (64 * curY + (x + j0)) 255) vf := by
            simp [drawBits, hcond, hbit, hmod, hpix, hbreak]
          obtain ⟨ih1, ih2, ih3, ih4⟩ :=
            ih (j0 + 1) (updateV buf (64 * curY + (x + j0)) 255) vf (by omega)
          rw [hstep]
          refine ⟨?_, ?_, ?_, ?_⟩
          · rintro t ⟨u, h1, h2, h3, h4, h5⟩
            subst h5
            rcases Nat.eq_or_lt_of_le h1 with heq | hlt2
            · have hteq : 64 * curY + (x + u) = 64 * curY + (x + j0) := by omega
              rw [hteq]
              have hnr : ¬ rowHits x curY byte (j0 + 1) n (64 * curY + (x + j0)) := by
                rintro ⟨u', hu1, hu2, hu3, hu4, hu5⟩
                omega
              rw [ih2 _ hnr]
              simp [updateV, hpix]
            · have hne : 64 * curY + (x + u) ≠ 64 * curY + (x + j0) := by omega
              rw [ih1 _ ⟨u, by omega, by omega, h3, h4, rfl⟩]
              simp [updateV, hne]
          · intro t ht
            have htj : t ≠ 64 * curY + (x + j0) := by
              intro heq
              exact ht ⟨j0, Nat.le_refl _, by omega, hlt, hbit1, heq⟩
            have hnr : ¬ rowHits x curY byte (j0 + 1) n t := by
              rintro ⟨u, h1, h2, h3, h4, h5⟩
              exact ht ⟨u, by omega, by omega, h3, h4, h5⟩
            rw [ih2 _ hnr]
            simp [updateV, htj]
          · rintro ⟨t, ⟨u, h1, h2, h3, h4, h5⟩, h255⟩
            subst h5
            have hu : j0 + 1 ≤ u := by
              rcases Nat.eq_or_lt_of_le h1 with heq | hlt2
              · exfalso
                have hteq : 64 * curY + (x + u) = 64 * curY + (x + j0) := by omega
                rw [hteq] at h255
                exact hpix h255
              · omega
            have hne : 64 * curY + (x + u) ≠ 64 * curY + (x + j0) := by omega
            refine ih3 ⟨_, ⟨u, hu, by omega, h3, h4, rfl⟩, ?_⟩
            simpa [updateV, hne] using h255
          · intro hno
            refine ih4 ?_
            rintro ⟨t, ⟨u, h1, h2, h3, h4, h5⟩, h255⟩
            subst h5
            have hne : 64 * curY + (x + u) ≠ 64 * curY + (x + j0) := by omega
            refine hno ⟨_, ⟨u, by omega, by omega, h3, h4, rfl⟩, ?_⟩
            simpa [updateV, hne] using h255

theorem drawRows_spec (x y : Nat) (hx : x < 64) :
    ∀ (rows : List Nat) (i0 : Nat) (buf : Nat → Nat) (vf : Nat), y + i0 ≤ 32 →
      (∀ t, rowsHits x y i0 rows t →
        (drawRows x y rows i0 buf vf).1 t = if buf t = 255 then 0 else 255) ∧
      (∀ t, ¬ rowsHits x y i0 rows t → (drawRows x y rows i0 buf vf).1 t = buf t) ∧
      ((∃ t, rowsHits x y i0 rows t ∧ buf t = 255) → (drawRows x y rows i0 buf vf).2 = 1) ∧
      ((¬ ∃ t, rowsHits x y i0 rows t ∧ buf t = 255) →
        (drawRows x y rows i0 buf vf).2 = vf) := by
  intro rows
  induction rows with
  | nil =>
    intro i0 buf vf hy0
    refine ⟨?_, ?_, ?_, ?_⟩
    · rintro t ⟨k, j, hk, _⟩
      simp at hk
    · intro t _
      rfl
    · rintro ⟨t, ⟨k, j, hk, _⟩, _⟩
      simp at hk
    · intro _
      rfl
  | cons b rest ih =>
    intro i0 buf vf hy0
    by_cases hbrk : y + i0 = 32
    · have hcond : (y + i0) % 256 = 32 := by omega
      have hstep : drawRows x y (b :: rest) i0 buf vf = (buf, vf) := by
        simp [drawRows, hcond]
      rw [hstep]
      refine ⟨?_, ?_, ?_, ?_⟩
      · rintro t ⟨k, j, hk, hk2, _⟩
        omega
      · intro t _
        rfl
      · rintro ⟨t, ⟨k, j, hk, hk2, _⟩, _⟩
        omega
      · intro _
        rfl
    · have hylt : y + i0 < 32 := by omega
      have hcond : ¬ (y + i0) % 256 = 32 := by omega
      have hmod : (y + i0) % 256 = y + i0 := by omega
      have hstep : drawRows x y (b :: rest) i0 buf vf
          = drawRows x y rest (i0 + 1)
              (drawBits x (y + i0) b (List.range 8) buf vf).1
              (drawBits x (y + i0) b (List.range 8) buf vf).2 := by
        simp [drawRows, hcond, hmod, hbrk]
      have hr8 : List.range 8 = List.range' 0 8 := List.range_eq_range' 8
      obtain ⟨b1, b2, b3, b4⟩ := drawBits_spec x (y + i0) b hx 8 0 buf vf (by omega)
      rw [← hr8] at b1 b2 b3 b4
      obtain ⟨r1, r2, r3, r4⟩ := ih (i0 + 1)
        ((drawBits x (y + i0) b (List.range 8) buf vf).1)
        ((drawBits x (y + i0) b (List.range 8) buf vf).2) (by omega)
      have hsplit : ∀ t, rowsHits x y i0 (b :: rest) t ↔
          rowHits x (y + i0) b 0 8 t ∨ rowsHits x y (i0 + 1) rest t := by
        intro t
        constructor
        · rintro ⟨k, j, hk, hk2, hj, hxj, hbit, heq⟩
          cases k with
          | zero =>
            left
            refine ⟨j, Nat.zero_le _, by omega, hxj, ?_, by omega⟩
            simpa using hbit
          | succ kp =>
            right
            simp only [List.length_cons] at hk
            refine ⟨kp, j, by omega, by omega, hj, hxj, ?_, by omega⟩
            simpa using hbit
        · rintro (⟨u, hu1, hu2, hu3, hu4, hu5⟩ | ⟨k, j, hk, hk2, hj, hxj, hbit, heq⟩)
          · exact ⟨0, u, by simp, by omega, by omega, hu3, by simpa using hu4, by omega⟩
          · refine ⟨k + 1, j, by simp; omega, by omega, hj, hxj, ?_, by omega⟩
            simpa using hbit
      have hdisj : ∀ t, rowsHits x y (i0 + 1) rest t → ¬ rowHits x (y + i0) b 0 8 t := by
        rintro t ⟨k, j, hk, hk2, hj, hxj, hbit, heq⟩ ⟨u, hu1, hu2, hu3, hu4, hu5⟩
        omega
      refine ⟨?_, ?_, ?_, ?_⟩
      · intro t ht
        rcases (hsplit t).mp ht with hrow | hrest
        · have hnr : ¬ rowsHits x y (i0 + 1) rest t := fun hr => hdisj t hr hrow
          rw [hstep, r2 t hnr, b1 t hrow]
        · have hnb : ¬ rowHits x (y + i0) b 0 8 t := hdisj t hrest
          rw [hstep, r1 t hrest, b2 t hnb]
      · intro t ht
        have hnb : ¬ rowHits x (y + i0) b 0 8 t :=
          fun hb' => ht ((hsplit t).mpr (Or.inl hb'))
        have hnr : ¬ rowsHits x y (i0 + 1) rest t :=
          fun hr => ht ((hsplit t).mpr (Or.inr hr))
        rw [hstep, r2 t hnr, b2 t hnb]
      · rintro ⟨t, ht, h255⟩
        rcases (hsplit t).mp ht with hrow | hrest
        · have hb2eq : (drawBits x (y + i0) b (List.range 8) buf vf).2 = 1 :=
            b3 ⟨t, hrow, h255⟩
          rw [hstep]
          by_cases hrc : ∃ u, rowsHits x y (i0 + 1) rest u ∧
              (drawBits x (y + i0) b (List.range 8) buf vf).1 u = 255
          · exact r3 hrc
          · rw [r4 hrc, hb2eq]
        · have hnb : ¬ rowHits x (y + i0) b 0 8 t := hdisj t hrest
          rw [hstep]
          refine r3 ⟨t, hrest, ?_⟩
          rw [b2 t hnb]
          exact h255
      · intro hno
        have hnb : ¬ ∃ t, rowHits x (y + i0) b 0 8 t ∧ buf t = 255 := by
          rintro ⟨t, hb', h255⟩
          exact hno ⟨t, (hsplit t).mpr (Or.inl hb'), h255⟩
        have hnr : ¬ ∃ t, rowsHits x y (i0 + 1) rest t ∧
            (drawBits x (y + i0) b (List.range 8) buf vf).1 t = 255 := by
          rintro ⟨t, hrest, h255⟩
          have hnb' : ¬ rowHits x (y + i0) b 0 8 t := hdisj t hrest
          rw [b2 t hnb'] at h255
          exact hno ⟨t, (hsplit t).mpr (Or.inr hrest), h255⟩
        rw [hstep, r4 hnr, b4 hnb]

/-- C5: for every origin (x, y) with x < 64 and y < 32 and every sprite of
at most 15 rows, the draw XORs exactly the surviving 1-bits into the
framebuffer: every covered pixel (rowsHits, which only names in-bounds
pixels — rows and bits past row 31 / column 63 are clipped, never
wrapped) is flipped, ON (255) becoming OFF (0) and OFF becoming ON; every
other index of the buffer is untouched; and the returned collision flag
is 1 exactly when some covered pixel was ON, else 0. -/
theorem draw_spec (buf : Nat → Nat) (x y : Nat) (sprite : List Nat)
    (hx : x < 64) (hy : y < 32) (hlen : sprite.length ≤ 15) :
    (∀ t, rowsHits x y 0 sprite t →
      (updateBufSprite buf x y sprite).1 t = if buf t = 255 then 0 else 255) ∧
    (∀ t, ¬ rowsHits x y 0 sprite t → (updateBufSprite buf x y sprite).1 t = buf t) ∧
    ((∃ t, rowsHits x y 0 sprite t ∧ buf t = 255) →
      (updateBufSprite buf x y sprite).2 = 1) ∧
    ((¬ ∃ t, rowsHits x y 0 sprite t ∧ buf t = 255) →
      (updateBufSprite buf x y sprite).2 = 0) :=
  drawRows_spec x y hx sprite 0 buf 0 (by omega)

/-- C5 witness: a single-row sprite 0x80 drawn at (0,0) on the all-OFF
buffer turns pixel (0,0) ON, via draw_spec. -/
theorem draw_spec_witness :
    (updateBufSprite memZero 0 0 [128]).1 0 = 255 := by
  have h := (draw_spec memZero 0 0 [128] (by decide) (by decide) (by decide)).1 0
    ⟨0, 0, by decide, by decide, by decide, by decide, by decide, by decide⟩
  simpa [memZero] using h

end Chip8
